/-
Verification of the sensor-data ingestion pipeline (`mqtthandler.py`).

The definitions below are a shallow embedding of `MQTTHandler.process_data`
and its helpers.  Machine integers are modelled as `Nat` (the wire format is
unsigned 16-bit little-endian, and Python's conversion of those values to
`float` is injective, so we keep samples as `Nat` throughout).  Fallible code
returns `Except DecodeError` or `Option`.  Python dictionaries keyed by
strings are modelled as functions into `Option`.
-/
import Mathlib

set_option maxRecDepth 100000

namespace Sarayu

/-- Decode failure taxonomy from the spec (§7); the code expresses these as
`continue` statements with a logged message at the corresponding checks. -/
inductive DecodeError
  | TooShort
  | InvalidHeader
  | LengthMismatch
  | InvalidShape
deriving DecidableEq, Repr

/-- The local variables of `process_data` holding one decoded message
(lines 145–150 / 236 of `mqtthandler.py`): `values` is the list of
per-channel sample arrays (for binary payloads: main channels in order,
then the tacho frequency array if appended, then the tacho trigger array
if appended). -/
structure Decoded where
  values : List (List Nat)
  sample_rate : Nat
  frame_index : Nat
  main_channels : Nat
  tacho_channels_count : Nat
  samples_per_channel : Nat
deriving DecidableEq, Repr

/-- A structured (JSON) payload, mirroring the fields read at lines 154–158.
`main_channels = none` models an absent `"main_channels"` key, for which the
code substitutes the resolved channel count. -/
structure JsonPayload where
  values : List (List Nat)
  sample_rate : Nat
  frame_index : Nat
  main_channels : Option Nat
  tacho_channels : Nat
deriving DecidableEq, Repr

/-- A raw payload is either JSON-parsable or raw bytes; the code's
try/except at lines 151–163 dispatches on exactly this distinction. -/
inductive RawPayload
  | json (j : JsonPayload)
  | binary (bytes : List Nat)
deriving DecidableEq, Repr

/-- The de-interleaving loop (lines 203–206 specialised with stride 4,
lines 211–218 with stride 5, lines 222–225 with stride `main_channels`):
`for i in range(0, len(data), k): for ch in range(k):
   if i + ch < len(data): channel_data[ch].append(data[i + ch])`.
Channel `ch` therefore receives `data[b*k + ch]` for each block index
`b < ceil(len(data)/k)` for which the index is in range; the
out-of-range guard is exactly `data[b*k+ch]?` being `some`. -/
def deinterleave (k : Nat) (data : List Nat) : List (List Nat) :=
  (List.range k).map fun ch =>
    (List.range ((data.length + k - 1) / k)).filterMap fun b => data[b * k + ch]?

/-- `struct.unpack(f"<{n}H", payload)` (line 171): pair up bytes
little-endian.  A trailing odd byte cannot occur at the call site (the
length was checked to be even). -/
def bytes_to_u16 : List Nat → List Nat
  | lo :: hi :: rest => (lo + (hi <<< 8)) :: bytes_to_u16 rest
  | _ => []

/-- Binary decoding from the flat `u16` list (lines 176–234).  Notes on
faithfulness: `header = values[:100]` always has 100 entries once the
length check passed, so the `len(header) > k` guards are kept verbatim;
the check `tacho_channels_count < 0` of line 189 is omitted because the
unpacked values are unsigned (`Nat`); the conditional appends of
lines 231–234 test list truthiness, i.e. non-emptiness. -/
def decode_binary_values (values : List Nat) (channel_count : Nat) : Except DecodeError Decoded :=
  if values.length < 100 then .error .TooShort else
  let header := values.take 100
  let frame_index := Nat.lor ((header.getD 1 0) <<< 16) (header.getD 0 0)
  let main_channels := if 2 < header.length then header.getD 2 0 else channel_count
  let sample_rate := if 3 < header.length then header.getD 3 0 else 1000
  let tacho_channels_count := if 6 < header.length then header.getD 6 0 else 2
  let total_channels := main_channels + tacho_channels_count
  let total_values := values.drop 100
  let samples_per_channel :=
    if total_values ≠ [] ∧ 0 < total_channels then total_values.length / total_channels else 0
  if main_channels = 0 ∨ sample_rate = 0 ∨ samples_per_channel = 0 then .error .InvalidHeader else
  if total_values.length ≠ samples_per_channel * total_channels then .error .LengthMismatch else
  let channel_data :=
    if main_channels = 4 then
      deinterleave 4 (total_values.take (samples_per_channel * 4))
    else if main_channels = 10 then
      deinterleave 5 (total_values.take (samples_per_channel * 5)) ++
        deinterleave 5 ((total_values.drop (samples_per_channel * 5)).take
          (samples_per_channel * 10 - samples_per_channel * 5))
    else
      deinterleave main_channels (total_values.take (samples_per_channel * main_channels))
  let tacho_data := total_values.drop (samples_per_channel * main_channels)
  let tacho_freq_data :=
    if 1 ≤ tacho_channels_count then tacho_data.take samples_per_channel else []
  let tacho_trigger_data :=
    if 2 ≤ tacho_channels_count then
      (tacho_data.drop samples_per_channel).take samples_per_channel
    else []
  .ok { values := channel_data ++
          (if tacho_freq_data = [] then [] else [tacho_freq_data]) ++
          (if tacho_trigger_data = [] then [] else [tacho_trigger_data])
        sample_rate := sample_rate
        frame_index := frame_index
        main_channels := main_channels
        tacho_channels_count := tacho_channels_count
        samples_per_channel := samples_per_channel }

/-- Binary decoding from raw bytes (lines 164–175 then 176–234). -/
def decode_binary (payload : List Nat) (channel_count : Nat) : Except DecodeError Decoded :=
  if payload.length < 20 ∨ payload.length % 2 ≠ 0 then .error .TooShort
  else decode_binary_values (bytes_to_u16 payload) channel_count

/-- JSON decoding (lines 152–162).  `samples_per_channel` is
`len(values[0])` when `values` is non-empty, else `0` (line 159); the
shape check of lines 160–162 rejects `values` shorter than
`main_channels`. -/
def decode_json (j : JsonPayload) (channel_count : Nat) : Except DecodeError Decoded :=
  let main_channels := j.main_channels.getD channel_count
  let samples_per_channel := (j.values.headD []).length
  if j.values.length < main_channels then .error .InvalidShape
  else .ok { values := j.values
             sample_rate := j.sample_rate
             frame_index := j.frame_index
             main_channels := main_channels
             tacho_channels_count := j.tacho_channels
             samples_per_channel := samples_per_channel }

/-- The two-variant decode attempt of §4.1: JSON first, binary on
non-JSON payloads (the `try`/`except` at lines 151–163). -/
def decode (p : RawPayload) (channel_count : Nat) : Except DecodeError Decoded :=
  match p with
  | .json j => decode_json j channel_count
  | .binary b => decode_binary b channel_count

/-- Spec-side definition (§8 round-trip law): re-interleave channel arrays
round-robin for `n` blocks: block `b` contributes element `b` of each
channel in channel order. -/
def interleaveRR (n : Nat) (chs : List (List Nat)) : List Nat :=
  (List.range n).flatMap fun b => chs.filterMap fun chl => chl[b]?

/-- Concrete 4-channel binary payload (bytes): header
`[5,0,4,1000,0,0,2,…]`, i.e. frame 5, 4 main channels, 1000 Hz, 2 tacho
channels, followed by 12 data values giving `samples_per_channel = 2`. -/
def samplePayload4 : List Nat :=
  [5, 0, 0, 0, 4, 0, 232, 3, 0, 0, 0, 0, 2, 0] ++ List.replicate 186 0 ++
    [1, 0, 2, 0, 3, 0, 4, 0, 5, 0, 6, 0, 7, 0, 8, 0, 9, 0, 10, 0, 11, 0, 12, 0]

/-- The decode result of `samplePayload4`. -/
def sampleDecoded4 : Decoded :=
  { values := [[1, 5], [2, 6], [3, 7], [4, 8], [9, 10], [11, 12]]
    sample_rate := 1000
    frame_index := 5
    main_channels := 4
    tacho_channels_count := 2
    samples_per_channel := 2 }

/-- `samplePayload4` decodes to `sampleDecoded4`. -/
theorem samplePayload4_decodes : decode_binary samplePayload4 4 = .ok sampleDecoded4 := rfl

/-- Concrete 10-channel binary payload (bytes): header
`[7,0,10,1000,0,0,1,…]` (frame 7, 10 main channels, 1000 Hz, 1 tacho
channel) followed by 22 data values, giving `samples_per_channel = 2`. -/
def samplePayload10 : List Nat :=
  [7, 0, 0, 0, 10, 0, 232, 3, 0, 0, 0, 0, 1, 0] ++ List.replicate 186 0 ++
    [1, 0, 2, 0, 3, 0, 4, 0, 5, 0, 6, 0, 7, 0, 8, 0, 9, 0, 10, 0, 11, 0,
     12, 0, 13, 0, 14, 0, 15, 0, 16, 0, 17, 0, 18, 0, 19, 0, 20, 0, 21, 0, 22, 0]

/-- The decode result of `samplePayload10`. -/
def sampleDecoded10 : Decoded :=
  { values := [[1, 6], [2, 7], [3, 8], [4, 9], [5, 10], [11, 16], [12, 17],
               [13, 18], [14, 19], [15, 20], [21, 22]]
    sample_rate := 1000
    frame_index := 7
    main_channels := 10
    tacho_channels_count := 1
    samples_per_channel := 2 }

/-- `samplePayload10` decodes to `sampleDecoded10`. -/
theorem samplePayload10_decodes : decode_binary samplePayload10 4 = .ok sampleDecoded10 := rfl

/-- The payload sent with `data_received`: the code reuses one signal both
for whole-frame emissions (line 287, the full list of channel arrays) and
per-channel emissions (lines 292/297, a single channel's array). -/
inductive EmitValues
  | whole (vs : List (List Nat))
  | single (chv : List Nat)
deriving DecidableEq, Repr

/-- One `data_received` emission (line 14 of `mqtthandler.py`). -/
structure Event where
  feature_name : String
  tag_name : String
  model_name : String
  payload : EmitValues
  sample_rate : Nat
  frame_index : Nat
deriving DecidableEq, Repr

/-- Keys of `self.feature_mapping` (lines 34–48) in insertion order, the
iteration order of the dispatch loop at line 273. -/
def feature_names : List String :=
  ["Tabular View", "Time View", "Time Report", "FFT", "Waterfall", "Centerline",
   "Orbit", "Trend View", "Multiple Trend View", "Bode Plot", "History Plot",
   "Polar Plot", "Report"]

/-- Dispatch for one non-aggregating feature (lines 285–298): whole-frame
features emit once with the full `values` list; the `Orbit`/`FFT` branch
(lines 289–293) and the default branch (lines 294–298) are textually
identical in the source: one emission per `ch_idx < min(main_channels,
len(values))`, carrying `values[ch_idx]`. -/
def dispatch_feature (feature tag_name model_name : String) (d : Decoded) : List Event :=
  if feature = "Time View" ∨ feature = "Time Report" ∨ feature = "Tabular View" then
    [{ feature_name := feature, tag_name := tag_name, model_name := model_name
       payload := .whole d.values, sample_rate := d.sample_rate, frame_index := d.frame_index }]
  else if feature = "Orbit" ∨ feature = "FFT" then
    (List.range (min d.main_channels d.values.length)).map fun ch_idx =>
      { feature_name := feature, tag_name := tag_name, model_name := model_name
        payload := .single (d.values.getD ch_idx []), sample_rate := d.sample_rate
        frame_index := d.frame_index }
  else
    (List.range (min d.main_channels d.values.length)).map fun ch_idx =>
      { feature_name := feature, tag_name := tag_name, model_name := model_name
        payload := .single (d.values.getD ch_idx []), sample_rate := d.sample_rate
        frame_index := d.frame_index }

/-- Python's negative-end slice `l[:-t]` as used at line 280:
for `t > 0` this is the first `len(l) - t` elements, and for `t = 0` it is
`l[:0] = []`. -/
def py_slice_neg (t : Nat) (l : List (List Nat)) : List (List Nat) :=
  if t = 0 then [] else l.take (l.length - t)

/-- One "Multiple Trend View" buffer update (lines 275–284).  The buffer is
created as `main_channels + tacho_channels_count` empty lists when the key
is absent; each `values[ch_idx]` is appended to `buffer[ch_idx]` in order;
if `values` is longer than the buffer the Python loop raises `IndexError`
after extending every existing entry (returned flag `false`, modelling the
exception caught by the per-payload handler at line 300); otherwise, if
every entry of `buffer[:-tacho_channels_count]` is non-empty, the buffer is
emitted and reset. -/
def multi_trend_step (buf0 : Option (List (List Nat))) (values : List (List Nat))
    (main_channels tacho_channels_count : Nat) :
    List (List Nat) × List (List (List Nat)) × Bool :=
  let buf := buf0.getD (List.replicate (main_channels + tacho_channels_count) [])
  let extended := (List.zipWith (· ++ ·) buf values) ++ buf.drop values.length
  if buf.length < values.length then (extended, [], false)
  else if (py_slice_neg tacho_channels_count extended).all (fun chd => !chd.isEmpty) then
    (List.replicate (main_channels + tacho_channels_count) [], [extended], true)
  else (extended, [], true)

/-- The dispatch loop over `feature_mapping` (lines 273–298), threading the
"Multiple Trend View" buffer for this (tag, model) key.  When the buffer
step raises (flag `false`), the loop aborts: features later in the
iteration order emit nothing for this payload, but emissions already made
stand. -/
def process_features_go (tag_name model_name : String) (d : Decoded) :
    List String → Option (List (List Nat)) →
      Option (List (List Nat)) × List Event
  | [], buf => (buf, [])
  | f :: fs, buf =>
    if f = "Multiple Trend View" then
      let step := multi_trend_step buf d.values d.main_channels d.tacho_channels_count
      let evs := step.2.1.map fun agg =>
        { feature_name := f, tag_name := tag_name, model_name := model_name
          payload := .whole agg, sample_rate := d.sample_rate, frame_index := d.frame_index }
      if step.2.2 then
        let rest := process_features_go tag_name model_name d fs (some step.1)
        (rest.1, evs ++ rest.2)
      else (some step.1, evs)
    else
      let rest := process_features_go tag_name model_name d fs buf
      (rest.1, dispatch_feature f tag_name model_name d ++ rest.2)

/-- Dispatching one decoded frame: the full feature loop. -/
def dispatch_frame (tag_name model_name : String) (d : Decoded)
    (buf0 : Option (List (List Nat))) : Option (List (List Nat)) × List Event :=
  process_features_go tag_name model_name d feature_names buf0

/-- The record handed to `save_history_message` (lines 252–264);
`createdAt`/`updatedAt` (wall clock) and the constant
`messageFrequency = None` are omitted. -/
structure SaveRecord where
  topic : String
  filename : String
  frameIndex : Nat
  message : List Nat
  numberOfChannels : Nat
  samplingRate : Nat
  samplingSize : Nat
  tacoChannelCount : Nat
deriving DecidableEq, Repr

/-- The flattening at lines 244–250: main channels concatenated, then
`values[main_channels]` if `tacho_count ≥ 1`, then
`values[main_channels + 1]` if `tacho_count ≥ 2`.  The Python indexing
`values[ch]` is always in range for decoded frames; `getD` makes the
function total. -/
def flatten_message (d : Decoded) : List Nat :=
  ((List.range d.main_channels).map fun ch => d.values.getD ch []).flatten ++
    (if 1 ≤ d.tacho_channels_count then d.values.getD d.main_channels [] else []) ++
    (if 2 ≤ d.tacho_channels_count then d.values.getD (d.main_channels + 1) [] else [])

/-- `start_saving` (lines 51–52): `self.saving_filenames[model_name] = filename`. -/
def start_saving (saving : String → Option String) (model_name filename : String) :
    String → Option String :=
  fun m => if m = model_name then some filename else saving m

/-- `stop_saving` (lines 54–56): delete the entry if present. -/
def stop_saving (saving : String → Option String) (model_name : String) :
    String → Option String :=
  fun m => if m = model_name then none else saving m

/-- The persistence gate (lines 242–265): if saving is active for the
model, build and submit exactly one record; otherwise none. -/
def maybe_persist (saving : String → Option String) (model_name tag_name : String)
    (d : Decoded) : List SaveRecord :=
  match saving model_name with
  | none => []
  | some filename =>
    [{ topic := tag_name, filename := filename, frameIndex := d.frame_index
       message := flatten_message d, numberOfChannels := d.main_channels
       samplingRate := d.sample_rate, samplingSize := d.samples_per_channel
       tacoChannelCount := d.tacho_channels_count }]

/-- Per-(tag, model) "Multiple Trend View" buffers
(`self._channel_data_buffer`, keyed in the source by
(tag, model, feature) with only "Multiple Trend View" ever using it). -/
abbrev BufMap := String × String → Option (List (List Nat))

/-- Processing of one payload (lines 143–301): decode, drop empty results
(line 236), persistence gate, then the feature loop.  `save_result` models
`db.save_history_message`: `some (success, msg)` is a normal return,
`none` models the call raising — then the per-payload `except` (line 300)
catches it and the feature loop never runs for this payload, though the
save was attempted. -/
def process_payload (tag_name model_name : String) (channel_count : Nat)
    (saving : String → Option String) (save_result : Option (Bool × String))
    (bufs : BufMap) (p : RawPayload) :
    BufMap × List SaveRecord × List String × List Event :=
  match decode p channel_count with
  | .error _ => (bufs, [], [], [])
  | .ok d =>
    if d.values.length = 0 then (bufs, [], [], [])
    else
      let saves := maybe_persist saving model_name tag_name d
      if saves ≠ [] ∧ save_result = none then (bufs, saves, [], [])
      else
        let statuses := saves.map fun r =>
          match save_result with
          | some (true, _) => "Saved data to " ++ r.filename ++ ", frame " ++ toString r.frameIndex
          | some (false, msg) => "Failed to save history message: " ++ msg
          | none => ""
        let res := dispatch_frame tag_name model_name d (bufs (tag_name, model_name))
        (fun k => if k = (tag_name, model_name) then res.1 else bufs k,
         saves, statuses, res.2)

/-- One model entry of the project configuration (§6). -/
structure ProjModel where
  name : String
  tagName : String
deriving DecidableEq, Repr

/-- The project's `channel_count` field, which may be one of the labelled
tokens of line 75, a number, or anything else. -/
inductive ChannelCountToken
  | daq4ch
  | daq8ch
  | daq10ch
  | num (n : Nat)
  | other
deriving DecidableEq, Repr

/-- Project configuration as read through `get_project_data`. -/
structure ProjectData where
  models : List ProjModel
  channel_count : ChannelCountToken
deriving DecidableEq, Repr

/-- Channel-count token resolution (lines 75–83): labelled tokens map to
4/8/10; a number must be one of 4, 8, 10; anything else defaults to 4. -/
def resolve_channel_count : ChannelCountToken → Nat
  | .daq4ch => 4
  | .daq8ch => 8
  | .daq10ch => 10
  | .num n => if n = 4 ∨ n = 8 ∨ n = 10 then n else 4
  | .other => 4

/-- `parse_topic` (lines 58–89): the first model whose `tagName` equals the
topic resolves it; no match (or no project data, or a falsy model name)
yields `None`. -/
def parse_topic (project_name : String) (pd : Option ProjectData) (topic : String) :
    Option (String × String × String) :=
  match pd with
  | none => none
  | some dta =>
    match dta.models.find? (fun (m : ProjModel) => m.tagName == topic) with
    | some m => if m.name = "" then none else some (project_name, m.name, topic)
    | none => none

/-- Processing all payloads of one topic in arrival order (lines 143–301),
threading the buffer map and concatenating saves, statuses and events. -/
def process_payloads (tag_name model_name : String) (channel_count : Nat)
    (saving : String → Option String) (save_result : Option (Bool × String)) :
    List RawPayload → BufMap → BufMap × List SaveRecord × List String × List Event
  | [], bufs => (bufs, [], [], [])
  | p :: ps, bufs =>
    let r := process_payload tag_name model_name channel_count saving save_result bufs p
    let rest := process_payloads tag_name model_name channel_count saving save_result ps r.1
    (rest.1, r.2.1 ++ rest.2.1, r.2.2.1 ++ rest.2.2.1, r.2.2.2 ++ rest.2.2.2)

/-- One pass of the batch loop body over the grouped messages
(lines 129–301): per topic, resolve it (skipping the topic's messages on
failure, line 131–133), re-fetch the model by name (lines 136–140), then
process that topic's payloads.  The channel count used as decode fallback
is the one `parse_topic` stored for the project (lines 75–84, read back at
line 135). -/
def process_batch (project_name : String) (pd : Option ProjectData)
    (saving : String → Option String) (save_result : Option (Bool × String)) :
    List (String × List RawPayload) → BufMap →
      BufMap × List SaveRecord × List String × List Event
  | [], bufs => (bufs, [], [], [])
  | (topic, payloads) :: rest, bufs =>
    let step :=
      match pd, parse_topic project_name pd topic with
      | some dta, some (pn, model_name, tag_name) =>
        if tag_name = "" ∨ pn ≠ project_name ∨ model_name = "" then (bufs, [], [], [])
        else
          match dta.models.find? (fun (m : ProjModel) => m.name == model_name) with
          | none => (bufs, [], [], [])
          | some _ =>
            process_payloads tag_name model_name (resolve_channel_count dta.channel_count)
              saving save_result payloads bufs
      | _, _ => (bufs, [], [], [])
    let r2 := process_batch project_name pd saving save_result rest step.1
    (r2.1, step.2.1 ++ r2.2.1, step.2.2.1 ++ r2.2.2.1, step.2.2.2 ++ r2.2.2.2)

/-! ### De-interleaving lemmas -/

/-- The Python block loop `range(0, L, k)` makes `⌈L/k⌉ = (L + k - 1) / k`
iterations; for an exact multiple this is the quotient. -/
theorem numBlocks_eq (k n : Nat) (hk : 0 < k) : (k * n + k - 1) / k = n := by
  have h1 : k * n + k - 1 = k * n + (k - 1) := by omega
  have h2 : (k - 1) / k = 0 := Nat.div_eq_of_lt (by omega)
  rw [h1, Nat.mul_add_div hk, h2]
  rfl

theorem filterMap_range_getElem (l : List Nat) (k : Nat) :
    (List.range k).filterMap (fun i => l[i]?) = l.take k := by
  induction k with
  | zero => simp
  | succ k ih =>
    rw [List.range_succ, List.filterMap_append, ih, List.take_succ]
    cases h : l[k]? <;> simp [List.filterMap_cons, h]

theorem flatMap_congr_mem {α β : Type} {l : List α} {f g : α → List β}
    (h : ∀ a ∈ l, f a = g a) : l.flatMap f = l.flatMap g := by
  induction l with
  | nil => rfl
  | cons a l ih =>
    simp only [List.flatMap_cons]
    rw [h a (by simp), ih fun x hx => h x (List.mem_cons_of_mem a hx)]

/-- Peeling one block off a de-interleaved channel: with `data` an exact
multiple of `k` blocks, channel `ch` is `data[ch]` followed by channel `ch`
of the remaining blocks. -/
theorem channel_cons (k ch n : Nat) (data : List Nat) (hch : ch < k)
    (hlen : data.length = k * (n + 1)) :
    (List.range (n + 1)).filterMap (fun b => data[b * k + ch]?) =
      data.getD ch 0 :: (List.range n).filterMap (fun b => (data.drop k)[b * k + ch]?) := by
  have hchlen : ch < data.length := by
    rw [hlen]
    calc ch < k := hch
      _ = k * 1 := (Nat.mul_one k).symm
      _ ≤ k * (n + 1) := Nat.mul_le_mul_left k (by omega)
  have h0 : (fun b => data[b * k + ch]?) 0 = some (data.getD ch 0) := by
    simp [List.getElem?_eq_getElem hchlen]
  rw [List.range_succ_eq_map,
    List.filterMap_cons_some (f := fun b => data[b * k + ch]?) (a := 0) h0,
    List.filterMap_map]
  congr 1
  apply List.filterMap_congr
  intro b _
  have harith : Nat.succ b * k + ch = k + (b * k + ch) := by
    rw [Nat.succ_mul]; omega
  simp only [Function.comp_apply, harith, List.getElem?_drop]

/-- Each of the `k` channel lists produced by de-interleaving an exact
`k * n`-element list has exactly `n` elements. -/
theorem deinterleave_channels_length (k n : Nat) (hk : 0 < k) (data : List Nat)
    (hlen : data.length = k * n) :
    ∀ chl ∈ deinterleave k data, chl.length = n := by
  intro chl hmem
  simp only [deinterleave, List.mem_map] at hmem
  obtain ⟨ch, hch, rfl⟩ := hmem
  have hchk : ch < k := List.mem_range.mp hch
  rw [hlen, numBlocks_eq k n hk]
  have hall : ∀ b ∈ List.range n, (data[b * k + ch]?).isSome := by
    intro b hb
    have hbn : b < n := List.mem_range.mp hb
    have hidx : b * k + ch < data.length := by
      rw [hlen]
      calc b * k + ch < b * k + k := Nat.add_lt_add_left hchk _
        _ = (b + 1) * k := (Nat.succ_mul b k).symm
        _ ≤ n * k := Nat.mul_le_mul_right k hbn
        _ = k * n := Nat.mul_comm n k
    simp [List.getElem?_eq_getElem hidx]
  rw [List.filterMap_length_eq_length.mpr hall, List.length_range]

theorem deinterleave_length (k : Nat) (data : List Nat) :
    (deinterleave k data).length = k := by
  simp [deinterleave]

/-- §8 round-trip law, core form: de-interleaving an exact `k * n`-element
flat sequence into `k` channels and re-interleaving them round-robin over
`n` blocks reproduces the sequence. -/
theorem interleaveRR_deinterleave (k : Nat) (hk : 0 < k) (n : Nat) :
    ∀ data : List Nat, data.length = k * n →
      interleaveRR n (deinterleave k data) = data := by
  induction n with
  | zero =>
    intro data hlen
    have hd : data = [] := List.length_eq_zero.mp (by omega)
    subst hd
    simp [interleaveRR]
  | succ n ih =>
    intro data hlen
    have hrestlen : (data.drop k).length = k * n := by
      rw [List.length_drop, hlen, Nat.mul_succ]; omega
    have hunfold : deinterleave k data =
        (List.range k).map fun ch =>
          (List.range (n + 1)).filterMap fun b => data[b * k + ch]? := by
      simp only [deinterleave]
      rw [hlen, numBlocks_eq k (n + 1) hk]
    have hrestunfold : deinterleave k (data.drop k) =
        (List.range k).map fun ch =>
          (List.range n).filterMap fun b => (data.drop k)[b * k + ch]? := by
      simp only [deinterleave]
      rw [hrestlen, numBlocks_eq k n hk]
    have hhead : (deinterleave k data).filterMap (fun chl => chl[0]?) = data.take k := by
      rw [hunfold, List.filterMap_map]
      have hcongr : ∀ ch ∈ List.range k,
          ((fun (chl : List Nat) => chl[0]?) ∘ fun ch =>
            (List.range (n + 1)).filterMap fun b => data[b * k + ch]?) ch =
          (fun i => data[i]?) ch := by
        intro ch hch
        have hchk : ch < k := List.mem_range.mp hch
        have hchlen : ch < data.length := by
          rw [hlen]
          calc ch < k := hchk
            _ = k * 1 := (Nat.mul_one k).symm
            _ ≤ k * (n + 1) := Nat.mul_le_mul_left k (by omega)
        simp only [Function.comp_apply]
        rw [channel_cons k ch n data hchk hlen]
        simp [List.getElem?_eq_getElem hchlen]
      rw [List.filterMap_congr hcongr, filterMap_range_getElem]
    have hstep : ∀ b : Nat,
        (deinterleave k data).filterMap (fun chl => chl[b + 1]?) =
          (deinterleave k (data.drop k)).filterMap (fun chl => chl[b]?) := by
      intro b
      rw [hunfold, hrestunfold, List.filterMap_map, List.filterMap_map]
      apply List.filterMap_congr
      intro ch hch
      have hchk : ch < k := List.mem_range.mp hch
      simp only [Function.comp_apply]
      rw [channel_cons k ch n data hchk hlen]
      simp
    calc interleaveRR (n + 1) (deinterleave k data)
        = (deinterleave k data).filterMap (fun chl => chl[0]?) ++
            (List.range n).flatMap
              ((fun b => (deinterleave k data).filterMap fun chl => chl[b]?) ∘ Nat.succ) := by
          rw [interleaveRR, List.range_succ_eq_map, List.flatMap_cons, List.flatMap_map]
          rfl
      _ = data.take k ++ interleaveRR n (deinterleave k (data.drop k)) := by
          rw [hhead, interleaveRR]
          congr 1
          apply flatMap_congr_mem
          intro b _
          exact hstep b
      _ = data.take k ++ data.drop k := by rw [ih (data.drop k) hrestlen]
      _ = data := List.take_append_drop k data

/-! ### Inversion of the binary decoder -/

/-- The record built on the success path of `decode_binary_values` for a
payload of at least 100 integers (where the header-length guards of
lines 182–184 always take the header branch, `header = values[:100]`
having exactly 100 entries, and `samples_per_channel` is the plain
quotient).  Used only to state decoder inversion. -/
def decode_success_record (values : List Nat) : Decoded :=
  let tv := values.drop 100
  let m := values.getD 2 0
  let t := values.getD 6 0
  let s := tv.length / (m + t)
  { values :=
      (if m = 4 then deinterleave 4 (tv.take (s * 4))
       else if m = 10 then
         deinterleave 5 (tv.take (s * 5)) ++
           deinterleave 5 ((tv.drop (s * 5)).take (s * 10 - s * 5))
       else deinterleave m (tv.take (s * m))) ++
      (if (if 1 ≤ t then (tv.drop (s * m)).take s else []) = [] then []
       else [if 1 ≤ t then (tv.drop (s * m)).take s else []]) ++
      (if (if 2 ≤ t then ((tv.drop (s * m)).drop s).take s else []) = [] then []
       else [if 2 ≤ t then ((tv.drop (s * m)).drop s).take s else []])
    sample_rate := values.getD 3 0
    frame_index := Nat.lor ((values.getD 1 0) <<< 16) (values.getD 0 0)
    main_channels := m
    tacho_channels_count := t
    samples_per_channel := s }

theorem getD_take_100 (values : List Nat) (i : Nat) (hi : i < 100) :
    (values.take 100).getD i 0 = values.getD i 0 := by
  simp [List.getElem?_take_of_lt hi]

/-- Inversion: a successful binary decode means the payload had at least
100 integers, a non-zero channel count, sample rate and derived
samples-per-channel, an exactly divisible data region, and the result is
the success-path record. -/
theorem decode_binary_values_ok_inv (values : List Nat) (cc : Nat) (d : Decoded)
    (h : decode_binary_values values cc = .ok d) :
    100 ≤ values.length ∧ values.getD 2 0 ≠ 0 ∧ values.getD 3 0 ≠ 0 ∧
    (values.drop 100).length / (values.getD 2 0 + values.getD 6 0) ≠ 0 ∧
    (values.drop 100).length =
      (values.drop 100).length / (values.getD 2 0 + values.getD 6 0) *
        (values.getD 2 0 + values.getD 6 0) ∧
    d = decode_success_record values := by
  unfold decode_binary_values at h
  by_cases h100 : values.length < 100
  · rw [if_pos h100] at h
    exact absurd h (by simp)
  rw [if_neg h100] at h
  have h100' : 100 ≤ values.length := by omega
  have hlen100 : (values.take 100).length = 100 := by rw [List.length_take]; omega
  simp only [hlen100] at h
  rw [if_pos (by norm_num : (2:Nat) < 100), if_pos (by norm_num : (3:Nat) < 100),
    if_pos (by norm_num : (6:Nat) < 100)] at h
  simp only [getD_take_100 values 0 (by norm_num), getD_take_100 values 1 (by norm_num),
    getD_take_100 values 2 (by norm_num), getD_take_100 values 3 (by norm_num),
    getD_take_100 values 6 (by norm_num)] at h
  by_cases hcond : values.drop 100 ≠ [] ∧ 0 < values.getD 2 0 + values.getD 6 0
  case neg =>
    rw [if_neg hcond] at h
    simp at h
  case pos =>
    rw [if_pos hcond] at h
    by_cases hg1 : values.getD 2 0 = 0 ∨ values.getD 3 0 = 0 ∨
        (values.drop 100).length / (values.getD 2 0 + values.getD 6 0) = 0
    · rw [if_pos hg1] at h
      exact absurd h (by simp)
    rw [if_neg hg1] at h
    push_neg at hg1
    obtain ⟨hm, hr, hs⟩ := hg1
    by_cases hg2 : (values.drop 100).length ≠
        (values.drop 100).length / (values.getD 2 0 + values.getD 6 0) *
          (values.getD 2 0 + values.getD 6 0)
    · rw [if_pos hg2] at h
      exact absurd h (by simp)
    rw [if_neg hg2] at h
    push_neg at hg2
    injection h with hd
    subst hd
    refine ⟨h100', hm, hr, hs, hg2, ?_⟩
    simp only [decode_success_record]

/-- Structure of a successfully binary-decoded frame: positive
header-derived fields, their position in the header, exact division of
the data region, and the shape of `values`: de-interleaved main channels,
then the tacho frequency block iff `tacho_channels_count ≥ 1`, then the
tacho trigger block iff `tacho_channels_count ≥ 2`. -/
theorem decoded_structure (values : List Nat) (cc : Nat) (d : Decoded)
    (h : decode_binary_values values cc = .ok d) :
    0 < d.main_channels ∧ 0 < d.sample_rate ∧ 0 < d.samples_per_channel ∧
    d.main_channels = values.getD 2 0 ∧
    d.sample_rate = values.getD 3 0 ∧
    d.tacho_channels_count = values.getD 6 0 ∧
    (values.drop 100).length =
      d.samples_per_channel * (d.main_channels + d.tacho_channels_count) ∧
    d.values =
      (if d.main_channels = 4 then
        deinterleave 4 ((values.drop 100).take (d.samples_per_channel * 4))
       else if d.main_channels = 10 then
        deinterleave 5 ((values.drop 100).take (d.samples_per_channel * 5)) ++
          deinterleave 5 (((values.drop 100).drop (d.samples_per_channel * 5)).take
            (d.samples_per_channel * 10 - d.samples_per_channel * 5))
       else
        deinterleave d.main_channels
          ((values.drop 100).take (d.samples_per_channel * d.main_channels))) ++
      (if 1 ≤ d.tacho_channels_count then
        [((values.drop 100).drop (d.samples_per_channel * d.main_channels)).take
           d.samples_per_channel] else []) ++
      (if 2 ≤ d.tacho_channels_count then
        [(((values.drop 100).drop (d.samples_per_channel * d.main_channels)).drop
            d.samples_per_channel).take d.samples_per_channel] else []) := by
  obtain ⟨h100, hm, hr, hs, hdiv, rfl⟩ := decode_binary_values_ok_inv values cc d h
  simp only [decode_success_record]
  set TV := values.drop 100 with hTV
  set M := values.getD 2 0 with hM
  set R := values.getD 3 0 with hR
  set T := values.getD 6 0 with hT
  set S := TV.length / (M + T) with hS
  have hdroplen : (TV.drop (S * M)).length = S * T := by
    rw [List.length_drop, hdiv, Nat.mul_add]
    exact Nat.add_sub_cancel_left _ _
  refine ⟨Nat.pos_of_ne_zero hm, Nat.pos_of_ne_zero hr, Nat.pos_of_ne_zero hs,
    trivial, trivial, trivial, hdiv, ?_⟩
  congr 1
  · -- the tacho frequency block
    by_cases h1 : 1 ≤ T
    · have hfrlen : ((TV.drop (S * M)).take S).length = S := by
        rw [List.length_take, hdroplen]
        apply Nat.min_eq_left
        calc S = S * 1 := (Nat.mul_one _).symm
          _ ≤ S * T := Nat.mul_le_mul_left _ h1
      have hfrne : (TV.drop (S * M)).take S ≠ [] := by
        intro hnil
        rw [hnil] at hfrlen
        simp at hfrlen
        omega
      simp [h1, hfrne]
    · simp [h1]
  · -- the tacho trigger block
    by_cases h2 : 2 ≤ T
    · have htrlen : (((TV.drop (S * M)).drop S).take S).length = S := by
        rw [List.length_take, List.length_drop, hdroplen]
        apply Nat.min_eq_left
        have h2s : S * 2 ≤ S * T := Nat.mul_le_mul_left _ h2
        apply Nat.le_sub_of_add_le
        calc S + S = S * 2 := (Nat.mul_two _).symm
          _ ≤ S * T := h2s
      have htrne : ((TV.drop (S * M)).drop S).take S ≠ [] := by
        intro hnil
        rw [hnil] at htrlen
        simp at htrlen
        omega
      simp [h2, htrne]
      refine ⟨hs, ?_⟩
      have h2s : S * 2 ≤ S * T := Nat.mul_le_mul_left _ h2
      have hSpos : 0 < S := Nat.pos_of_ne_zero hs
      calc S * M + S < S * M + S * 2 := by omega
        _ ≤ S * M + S * T := Nat.add_le_add_left h2s _
        _ = TV.length := by rw [hdiv, Nat.mul_add]
    · simp [h2]

theorem tv_take_length (TV : List Nat) (s a b : Nat) (hdiv : TV.length = s * b)
    (hab : a ≤ b) : (TV.take (s * a)).length = s * a := by
  rw [List.length_take]
  apply Nat.min_eq_left
  rw [hdiv]
  exact Nat.mul_le_mul_left s hab

theorem freq_block_length (TV : List Nat) (s m t : Nat) (hdiv : TV.length = s * (m + t))
    (h1 : 1 ≤ t) : ((TV.drop (s * m)).take s).length = s := by
  rw [List.length_take, List.length_drop, hdiv, Nat.mul_add, Nat.add_sub_cancel_left]
  apply Nat.min_eq_left
  calc s = s * 1 := (Nat.mul_one _).symm
    _ ≤ s * t := Nat.mul_le_mul_left _ h1

theorem trig_block_length (TV : List Nat) (s m t : Nat) (hdiv : TV.length = s * (m + t))
    (h2 : 2 ≤ t) : (((TV.drop (s * m)).drop s).take s).length = s := by
  rw [List.length_take, List.length_drop, List.length_drop, hdiv, Nat.mul_add,
    Nat.add_sub_cancel_left]
  apply Nat.min_eq_left
  apply Nat.le_sub_of_add_le
  calc s + s = s * 2 := (Nat.mul_two _).symm
    _ ≤ s * t := Nat.mul_le_mul_left _ h2

/-- The length of the second ADC block taken in the 10-channel branch. -/
theorem adc2_length (TV : List Nat) (s t : Nat) (hdiv : TV.length = s * (10 + t)) :
    ((TV.drop (s * 5)).take (s * 10 - s * 5)).length = s * 5 := by
  have h5 : s * 10 - s * 5 = s * 5 := by omega
  rw [h5, List.length_take, List.length_drop, hdiv]
  apply Nat.min_eq_left
  apply Nat.le_sub_of_add_le
  calc s * 5 + s * 5 = s * 10 := by omega
    _ ≤ s * (10 + t) := Nat.mul_le_mul_left _ (by omega)

/-- The main-channel part of a decoded frame: `values.take main_channels`
recovers exactly the de-interleaved channel lists, which number
`main_channels`, each of length `samples_per_channel`. -/
theorem decoded_main_part (values : List Nat) (cc : Nat) (d : Decoded)
    (h : decode_binary_values values cc = .ok d) :
    (d.values.take d.main_channels).length = d.main_channels ∧
    d.values.take d.main_channels =
      (if d.main_channels = 4 then
        deinterleave 4 ((values.drop 100).take (d.samples_per_channel * 4))
       else if d.main_channels = 10 then
        deinterleave 5 ((values.drop 100).take (d.samples_per_channel * 5)) ++
          deinterleave 5 (((values.drop 100).drop (d.samples_per_channel * 5)).take
            (d.samples_per_channel * 10 - d.samples_per_channel * 5))
       else
        deinterleave d.main_channels
          ((values.drop 100).take (d.samples_per_channel * d.main_channels))) := by
  obtain ⟨hmpos, hrpos, hspos, hMe, hRe, hTe, hdiv, hval⟩ := decoded_structure values cc d h
  set TV := values.drop 100 with hTV
  set m := d.main_channels with hm
  set t := d.tacho_channels_count with ht
  set s := d.samples_per_channel with hs
  have hmainlen :
      (if m = 4 then deinterleave 4 (TV.take (s * 4))
       else if m = 10 then
        deinterleave 5 (TV.take (s * 5)) ++
          deinterleave 5 ((TV.drop (s * 5)).take (s * 10 - s * 5))
       else deinterleave m (TV.take (s * m))).length = m := by
    by_cases hm4 : m = 4
    · simp [hm4, deinterleave_length]
    by_cases hm10 : m = 10
    · simp [hm4, hm10, deinterleave_length]
    · simp [hm4, hm10, deinterleave_length]
  have htk : d.values.take m = (if m = 4 then deinterleave 4 (TV.take (s * 4))
       else if m = 10 then
        deinterleave 5 (TV.take (s * 5)) ++
          deinterleave 5 ((TV.drop (s * 5)).take (s * 10 - s * 5))
       else deinterleave m (TV.take (s * m))) := by
    rw [hval, List.append_assoc, List.take_left' hmainlen]
  refine ⟨?_, htk⟩
  rw [htk]
  exact hmainlen

/-- Every inner array of a binary-decoded frame has exactly
`samples_per_channel` elements, and the number of arrays is
`main_channels` plus one per appended tacho block. -/
theorem decoded_values_shape (values : List Nat) (cc : Nat) (d : Decoded)
    (h : decode_binary_values values cc = .ok d) :
    (∀ chl ∈ d.values, chl.length = d.samples_per_channel) ∧
    d.values.length = d.main_channels +
      (if 1 ≤ d.tacho_channels_count then 1 else 0) +
      (if 2 ≤ d.tacho_channels_count then 1 else 0) := by
  obtain ⟨hmpos, hrpos, hspos, hMe, hRe, hTe, hdiv, hval⟩ := decoded_structure values cc d h
  set TV := values.drop 100 with hTV
  set m := d.main_channels with hm
  set t := d.tacho_channels_count with ht
  set s := d.samples_per_channel with hs
  have hmain : ∀ chl ∈ (if m = 4 then deinterleave 4 (TV.take (s * 4))
       else if m = 10 then
        deinterleave 5 (TV.take (s * 5)) ++
          deinterleave 5 ((TV.drop (s * 5)).take (s * 10 - s * 5))
       else deinterleave m (TV.take (s * m))), chl.length = s := by
    by_cases hm4 : m = 4
    · rw [if_pos hm4]
      apply deinterleave_channels_length 4 s (by norm_num)
      rw [tv_take_length TV s 4 (m + t) hdiv (by omega)]
      ring
    by_cases hm10 : m = 10
    · rw [if_neg hm4, if_pos hm10]
      have hdiv10 : TV.length = s * (10 + t) := by rw [← hm10]; exact hdiv
      intro chl hchl
      rcases List.mem_append.mp hchl with hA | hB
      · exact deinterleave_channels_length 5 s (by norm_num) _
          (by rw [tv_take_length TV s 5 (m + t) hdiv (by omega)]; ring) chl hA
      · exact deinterleave_channels_length 5 s (by norm_num) _
          (by rw [adc2_length TV s t hdiv10]; ring) chl hB
    · rw [if_neg hm4, if_neg hm10]
      apply deinterleave_channels_length m s hmpos
      rw [tv_take_length TV s m (m + t) hdiv (by omega)]
      ring
  have hmainlen : (if m = 4 then deinterleave 4 (TV.take (s * 4))
       else if m = 10 then
        deinterleave 5 (TV.take (s * 5)) ++
          deinterleave 5 ((TV.drop (s * 5)).take (s * 10 - s * 5))
       else deinterleave m (TV.take (s * m))).length = m := by
    by_cases hm4 : m = 4
    · simp [hm4, deinterleave_length]
    by_cases hm10 : m = 10
    · simp [hm4, hm10, deinterleave_length]
    · simp [hm4, hm10, deinterleave_length]
  constructor
  · rw [hval]
    intro chl hchl
    rcases List.mem_append.mp hchl with h12 | htr
    · rcases List.mem_append.mp h12 with hmn | hfr
      · exact hmain chl hmn
      · by_cases h1 : 1 ≤ t
        · rw [if_pos h1, List.mem_singleton] at hfr
          rw [hfr]
          exact freq_block_length TV s m t hdiv h1
        · rw [if_neg h1] at hfr
          exact absurd hfr (List.not_mem_nil chl)
    · by_cases h2 : 2 ≤ t
      · rw [if_pos h2, List.mem_singleton] at htr
        rw [htr]
        exact trig_block_length TV s m t hdiv h2
      · rw [if_neg h2] at htr
        exact absurd htr (List.not_mem_nil chl)
  · rw [hval, List.length_append, List.length_append, hmainlen]
    by_cases h1 : 1 ≤ t <;> by_cases h2 : 2 ≤ t <;> simp [h1, h2]

/-- Position of the two tacho blocks inside `values` of a binary-decoded
frame: `values[main_channels]` is the frequency block (when present) and
`values[main_channels + 1]` the trigger block (when present). -/
theorem decoded_tacho_blocks (values : List Nat) (cc : Nat) (d : Decoded)
    (h : decode_binary_values values cc = .ok d) :
    (1 ≤ d.tacho_channels_count →
      d.values.getD d.main_channels [] =
        ((values.drop 100).drop (d.samples_per_channel * d.main_channels)).take
          d.samples_per_channel) ∧
    (2 ≤ d.tacho_channels_count →
      d.values.getD (d.main_channels + 1) [] =
        (((values.drop 100).drop (d.samples_per_channel * d.main_channels)).drop
          d.samples_per_channel).take d.samples_per_channel) := by
  obtain ⟨hmlen, htk⟩ := decoded_main_part values cc d h
  obtain ⟨hmpos, hrpos, hspos, hMe, hRe, hTe, hdiv, hval⟩ := decoded_structure values cc d h
  set TV := values.drop 100 with hTV
  set m := d.main_channels with hm
  set t := d.tacho_channels_count with ht
  set s := d.samples_per_channel with hs
  have hmainlen : (if m = 4 then deinterleave 4 (TV.take (s * 4))
       else if m = 10 then
        deinterleave 5 (TV.take (s * 5)) ++
          deinterleave 5 ((TV.drop (s * 5)).take (s * 10 - s * 5))
       else deinterleave m (TV.take (s * m))).length = m := by
    rw [htk] at hmlen
    exact hmlen
  constructor
  · intro h1
    rw [hval]
    rw [List.getD_eq_getElem?_getD, List.getElem?_append_left, List.getElem?_append_right
      (by rw [hmainlen]), hmainlen, Nat.sub_self, if_pos h1]
    · rfl
    · rw [List.length_append, hmainlen, if_pos h1]
      simp
  · intro h2
    have h1 : 1 ≤ t := by omega
    rw [hval]
    rw [List.getD_eq_getElem?_getD, List.getElem?_append_right
      (by rw [List.length_append, hmainlen, if_pos h1]; simp), List.length_append, hmainlen,
      if_pos h1, if_pos h2]
    simp

/-- A binary-decoded frame has at least `main_channels` inner arrays. -/
theorem decoded_values_ge_main (values : List Nat) (cc : Nat) (d : Decoded)
    (h : decode_binary_values values cc = .ok d) :
    d.main_channels ≤ d.values.length := by
  obtain ⟨_, hlen⟩ := decoded_values_shape values cc d h
  rw [hlen]
  omega

/-- A successful byte-level binary decode is a successful decode of the
unpacked `u16` sequence. -/
theorem decode_binary_ok (payload : List Nat) (cc : Nat) (d : Decoded)
    (h : decode (.binary payload) cc = .ok d) :
    decode_binary_values (bytes_to_u16 payload) cc = .ok d := by
  have h' : decode_binary payload cc = .ok d := h
  unfold decode_binary at h'
  by_cases hc : payload.length < 20 ∨ payload.length % 2 ≠ 0
  · rw [if_pos hc] at h'
    exact absurd h' (by simp)
  · rw [if_neg hc] at h'
    exact h'

/-! ### Claim theorems -/

/-- C1: for every valid 4-channel binary payload (valid header, post-header
integer count exactly `samples_per_channel * total_channel_count`, which is
what a successful decode enforces), re-interleaving the four decoded main
channel arrays round-robin reproduces the original flat post-header
main-channel sample region exactly. -/
theorem c1_roundtrip_4ch (payload : List Nat) (cc : Nat) (d : Decoded)
    (h : decode (.binary payload) cc = .ok d) (h4 : d.main_channels = 4) :
    interleaveRR d.samples_per_channel (d.values.take 4) =
      ((bytes_to_u16 payload).drop 100).take (d.samples_per_channel * 4) := by
  have hv := decode_binary_ok payload cc d h
  obtain ⟨hmpos, hrpos, hspos, hMe, hRe, hTe, hdiv, hval⟩ :=
    decoded_structure (bytes_to_u16 payload) cc d hv
  obtain ⟨hmlen, htk⟩ := decoded_main_part (bytes_to_u16 payload) cc d hv
  rw [h4] at htk hdiv
  rw [if_pos rfl] at htk
  rw [htk]
  apply interleaveRR_deinterleave 4 (by norm_num) d.samples_per_channel
  rw [tv_take_length _ d.samples_per_channel 4 (4 + d.tacho_channels_count) hdiv (by omega)]
  ring

theorem c1_roundtrip_4ch_witness :
    interleaveRR sampleDecoded4.samples_per_channel (sampleDecoded4.values.take 4) =
      ((bytes_to_u16 samplePayload4).drop 100).take (sampleDecoded4.samples_per_channel * 4) :=
  c1_roundtrip_4ch samplePayload4 4 sampleDecoded4 rfl rfl

/-- C2: for every valid 10-channel binary payload, channels 0–4 are exactly
the round-robin de-interleaving of the first `samples_per_channel * 5`
post-header integers and channels 5–9 exactly that of the next
`samples_per_channel * 5` integers: re-interleaving each 5-wide group
round-robin reproduces its own half of the main-channel region, so no
sample crosses between the groups. -/
theorem c2_two_groups_10ch (payload : List Nat) (cc : Nat) (d : Decoded)
    (h : decode (.binary payload) cc = .ok d) (h10 : d.main_channels = 10) :
    interleaveRR d.samples_per_channel (d.values.take 5) =
      ((bytes_to_u16 payload).drop 100).take (d.samples_per_channel * 5) ∧
    interleaveRR d.samples_per_channel ((d.values.take 10).drop 5) =
      (((bytes_to_u16 payload).drop 100).drop (d.samples_per_channel * 5)).take
        (d.samples_per_channel * 5) := by
  have hv := decode_binary_ok payload cc d h
  obtain ⟨hmpos, hrpos, hspos, hMe, hRe, hTe, hdiv, hval⟩ :=
    decoded_structure (bytes_to_u16 payload) cc d hv
  obtain ⟨hmlen, htk⟩ := decoded_main_part (bytes_to_u16 payload) cc d hv
  set TV := (bytes_to_u16 payload).drop 100 with hTV
  set s := d.samples_per_channel with hs
  rw [h10] at htk hdiv
  rw [if_neg (by norm_num : ¬(10 : Nat) = 4), if_pos rfl] at htk
  have h55 : s * 10 - s * 5 = s * 5 := by omega
  rw [h55] at htk
  have hlenA : (TV.take (s * 5)).length = 5 * s := by
    rw [tv_take_length TV s 5 (10 + d.tacho_channels_count) hdiv (by omega)]
    ring
  have hlenB : ((TV.drop (s * 5)).take (s * 5)).length = 5 * s := by
    have := adc2_length TV s d.tacho_channels_count hdiv
    rw [h55] at this
    rw [this]
    ring
  have hA : (deinterleave 5 (TV.take (s * 5))).length = 5 := deinterleave_length _ _
  have htake5 : d.values.take 5 = deinterleave 5 (TV.take (s * 5)) := by
    have h5 : d.values.take 5 = (d.values.take 10).take 5 := by
      rw [List.take_take]
      norm_num
    rw [h5, htk, List.take_append_of_le_length (by simp [hA]),
      List.take_of_length_le (by simp [hA])]
  have hdrop5 : (d.values.take 10).drop 5 = deinterleave 5 ((TV.drop (s * 5)).take (s * 5)) := by
    rw [htk, List.drop_append_of_le_length (by simp [hA]),
      List.drop_of_length_le (by simp [hA]), List.nil_append]
  constructor
  · rw [htake5]
    exact interleaveRR_deinterleave 5 (by norm_num) s _ hlenA
  · rw [hdrop5]
    exact interleaveRR_deinterleave 5 (by norm_num) s _ hlenB

theorem c2_two_groups_10ch_witness :
    interleaveRR sampleDecoded10.samples_per_channel (sampleDecoded10.values.take 5) =
      ((bytes_to_u16 samplePayload10).drop 100).take (sampleDecoded10.samples_per_channel * 5) ∧
    interleaveRR sampleDecoded10.samples_per_channel ((sampleDecoded10.values.take 10).drop 5) =
      (((bytes_to_u16 samplePayload10).drop 100).drop
        (sampleDecoded10.samples_per_channel * 5)).take
        (sampleDecoded10.samples_per_channel * 5) :=
  c2_two_groups_10ch samplePayload10 4 sampleDecoded10 rfl rfl

/-- C4: a non-JSON payload shorter than 20 bytes or of odd byte length is
always rejected with `TooShort` (a total function in this model, so no
exception can escape the decoder). -/
theorem c4_short_or_odd_rejected (payload : List Nat) (cc : Nat)
    (h : payload.length < 20 ∨ payload.length % 2 = 1) :
    decode (.binary payload) cc = .error .TooShort := by
  show decode_binary payload cc = .error .TooShort
  unfold decode_binary
  rw [if_pos]
  rcases h with h | h
  · exact Or.inl h
  · exact Or.inr (by omega)

theorem c4_short_or_odd_rejected_witness :
    decode (.binary [0]) 4 = .error .TooShort :=
  c4_short_or_odd_rejected [0] 4 (Or.inl (by norm_num))

/-- A binary payload of at least 100 integers whose header field
`header[2]` is zero is rejected with `InvalidHeader` — the caller-supplied
fallback channel count is never consulted, because `header = values[:100]`
always has 100 entries at this point. -/
theorem decode_binary_values_zero_main (values : List Nat) (cc : Nat)
    (h100 : 100 ≤ values.length) (hzero : values.getD 2 0 = 0) :
    decode_binary_values values cc = .error .InvalidHeader := by
  unfold decode_binary_values
  rw [if_neg (by omega : ¬ values.length < 100)]
  have hlen100 : (values.take 100).length = 100 := by rw [List.length_take]; omega
  simp only [hlen100]
  rw [if_pos (by norm_num : (2:Nat) < 100), if_pos (by norm_num : (3:Nat) < 100),
    if_pos (by norm_num : (6:Nat) < 100)]
  simp only [getD_take_100 values 2 (by norm_num)]
  rw [if_pos (Or.inl hzero)]

/-- Concrete 208-byte payload whose unpacked header has `header[2] = 0`. -/
def zeroHeaderPayload : List Nat := List.replicate 208 0

/-- C5 counterexample: a payload with `header[2] = 0` makes the decoder
fail with `InvalidHeader`; it does not fall back to the caller-supplied
channel count (here 4) as the claim asserts. -/
theorem c5_counterexample :
    decode_binary zeroHeaderPayload 4 = .error .InvalidHeader ∧
    (∀ d : Decoded, decode_binary zeroHeaderPayload 4 ≠ .ok d) := by
  constructor
  · rfl
  · intro d hd
    rw [(rfl : decode_binary zeroHeaderPayload 4 = .error .InvalidHeader)] at hd
    exact Except.noConfusion hd

/-- C5 amended: `main_channel_count` is read from `header[2]` whenever the
binary decode succeeds; the fallback to the caller-supplied count is dead
code (the header always has 100 entries once decoding proceeds), and a
zero `header[2]` yields `InvalidHeader` rather than a fallback. -/
theorem c5_main_channels_from_header (values : List Nat) (cc : Nat) :
    (∀ d : Decoded, decode_binary_values values cc = .ok d →
      d.main_channels = values.getD 2 0) ∧
    (100 ≤ values.length → values.getD 2 0 = 0 →
      decode_binary_values values cc = .error .InvalidHeader) := by
  constructor
  · intro d hd
    exact (decoded_structure values cc d hd).2.2.2.1
  · intro h100 hzero
    exact decode_binary_values_zero_main values cc h100 hzero

theorem c5_main_channels_from_header_witness :
    sampleDecoded4.main_channels = (bytes_to_u16 samplePayload4).getD 2 0 ∧
    decode_binary_values (bytes_to_u16 zeroHeaderPayload) 7 = .error .InvalidHeader :=
  ⟨(c5_main_channels_from_header (bytes_to_u16 samplePayload4) 4).1 sampleDecoded4 rfl,
   (c5_main_channels_from_header (bytes_to_u16 zeroHeaderPayload) 7).2 (by decide) rfl⟩

/-- The ragged JSON payload used as a counterexample for C3: two channel
arrays of different lengths pass the decoder's shape check. -/
def raggedJson : JsonPayload :=
  { values := [[1, 2], [3]], sample_rate := 1000, frame_index := 0
    main_channels := some 2, tacho_channels := 0 }

/-- The frame the decoder produces for `raggedJson`. -/
def raggedDecoded : Decoded :=
  { values := [[1, 2], [3]], sample_rate := 1000, frame_index := 0
    main_channels := 2, tacho_channels_count := 0, samples_per_channel := 2 }

/-- C3 counterexample: a successfully decoded (JSON) frame whose inner
arrays do not all have `samples_per_channel` elements — the invariant
fails for the structured encoding, which never checks inner lengths. -/
theorem c3_counterexample :
    decode (.json raggedJson) 4 = .ok raggedDecoded ∧
    ¬ (∀ chl ∈ raggedDecoded.values, chl.length = raggedDecoded.samples_per_channel) := by
  constructor
  · rfl
  · decide

/-- C3 amended (restricted to the binary encoding): every inner array of a
binary-decoded frame has exactly `samples_per_channel` elements, the
tacho frequency array is appended iff `tacho_channel_count ≥ 1` (the
array count exceeds `main_channels` exactly then) and the tacho trigger
array is appended iff `tacho_channel_count ≥ 2`. -/
theorem c3_frame_invariant_binary (payload : List Nat) (cc : Nat) (d : Decoded)
    (h : decode (.binary payload) cc = .ok d) :
    (∀ chl ∈ d.values, chl.length = d.samples_per_channel) ∧
    (d.main_channels < d.values.length ↔ 1 ≤ d.tacho_channels_count) ∧
    (d.main_channels + 1 < d.values.length ↔ 2 ≤ d.tacho_channels_count) := by
  have hv := decode_binary_ok payload cc d h
  obtain ⟨hinner, hlen⟩ := decoded_values_shape (bytes_to_u16 payload) cc d hv
  refine ⟨hinner, ?_, ?_⟩ <;> rw [hlen] <;>
    by_cases h1 : 1 ≤ d.tacho_channels_count <;>
    by_cases h2 : 2 ≤ d.tacho_channels_count <;>
    simp [h1, h2] <;> omega

theorem c3_frame_invariant_binary_witness :
    (∀ chl ∈ sampleDecoded10.values, chl.length = sampleDecoded10.samples_per_channel) ∧
    (sampleDecoded10.main_channels < sampleDecoded10.values.length ↔
      1 ≤ sampleDecoded10.tacho_channels_count) ∧
    (sampleDecoded10.main_channels + 1 < sampleDecoded10.values.length ↔
      2 ≤ sampleDecoded10.tacho_channels_count) :=
  c3_frame_invariant_binary samplePayload10 4 sampleDecoded10 rfl

/-- Inner arrays addressed by index: `values[ch]` has
`samples_per_channel` elements for every `ch < main_channels`. -/
theorem decoded_getD_length (values : List Nat) (cc : Nat) (d : Decoded)
    (h : decode_binary_values values cc = .ok d) :
    ∀ ch < d.main_channels, (d.values.getD ch []).length = d.samples_per_channel := by
  obtain ⟨hinner, _⟩ := decoded_values_shape values cc d h
  have hge := decoded_values_ge_main values cc d h
  intro ch hch
  have hchlt : ch < d.values.length := lt_of_lt_of_le hch hge
  apply hinner
  rw [List.getD_eq_getElem?_getD, List.getElem?_eq_getElem hchlt]
  exact List.getElem_mem hchlt

/-- Length of the flattened record built by the persistence gate for a
binary-decoded frame with at most two tacho channels: all main channels
concatenated, then one block of `samples_per_channel` per tacho channel. -/
theorem flatten_message_length (payload : List Nat) (cc : Nat) (d : Decoded)
    (h : decode (.binary payload) cc = .ok d) (ht2 : d.tacho_channels_count ≤ 2) :
    (flatten_message d).length =
      d.main_channels * d.samples_per_channel +
        d.tacho_channels_count * d.samples_per_channel := by
  have hv := decode_binary_ok payload cc d h
  obtain ⟨hfr, htr⟩ := decoded_tacho_blocks (bytes_to_u16 payload) cc d hv
  obtain ⟨hmpos, hrpos, hspos, hMe, hRe, hTe, hdiv, hval⟩ :=
    decoded_structure (bytes_to_u16 payload) cc d hv
  have hgd := decoded_getD_length (bytes_to_u16 payload) cc d hv
  set TV := (bytes_to_u16 payload).drop 100 with hTV
  set m := d.main_channels with hm
  set t := d.tacho_channels_count with ht
  set s := d.samples_per_channel with hs
  have hmain : (((List.range m).map fun ch => d.values.getD ch []).flatten).length = m * s := by
    rw [List.length_flatten, List.map_map]
    rw [List.map_congr_left (g := fun _ => s) ?_]
    · rw [List.map_const', List.sum_replicate, smul_eq_mul, List.length_range]
    · intro ch hch
      exact hgd ch (List.mem_range.mp hch)
  unfold flatten_message
  rw [List.length_append, List.length_append, hmain]
  by_cases h1 : 1 ≤ t
  · by_cases h2 : 2 ≤ t
    · rw [if_pos h1, if_pos h2, hfr h1, htr h2, freq_block_length TV s m t hdiv h1,
        trig_block_length TV s m t hdiv h2]
      have : t = 2 := by omega
      rw [this]
      ring
    · rw [if_pos h1, if_neg h2, hfr h1, freq_block_length TV s m t hdiv h1]
      have : t = 1 := by omega
      rw [this]
      simp [Nat.one_mul]
  · rw [if_neg h1, if_neg (by omega : ¬ 2 ≤ t)]
    have : t = 0 := by omega
    rw [this]
    simp

/-- C7: after `start_saving(model, filename)`, processing one valid binary
frame for that model performs exactly one persistence call whose flattened
record has length `main_channels * samples_per_channel +
tacho_channels * samples_per_channel` (main channels concatenated, then
frequency block if `tacho ≥ 1`, then trigger block if `tacho ≥ 2`); after
`stop_saving(model)` no persistence call is made.  The length formula
presumes the spec's Frame bound `tacho_channel_count ∈ 0..2`. -/
theorem c7_saving_gate (payload : List Nat) (cc : Nat) (d : Decoded)
    (tag model fn : String) (s0 : String → Option String)
    (h : decode (.binary payload) cc = .ok d) (ht2 : d.tacho_channels_count ≤ 2) :
    ((maybe_persist (start_saving s0 model fn) model tag d).map fun r => r.message.length) =
      [d.main_channels * d.samples_per_channel +
        d.tacho_channels_count * d.samples_per_channel] ∧
    maybe_persist (stop_saving (start_saving s0 model fn) model) model tag d = [] := by
  constructor
  · simp [maybe_persist, start_saving, flatten_message_length payload cc d h ht2]
  · simp [maybe_persist, stop_saving]

theorem c7_saving_gate_witness :
    ((maybe_persist (start_saving (fun _ => none) "ModelA" "data7") "ModelA" "topic1"
        sampleDecoded4).map fun r => r.message.length) =
      [sampleDecoded4.main_channels * sampleDecoded4.samples_per_channel +
        sampleDecoded4.tacho_channels_count * sampleDecoded4.samples_per_channel] ∧
    maybe_persist (stop_saving (start_saving (fun _ => none) "ModelA" "data7") "ModelA")
      "ModelA" "topic1" sampleDecoded4 = [] :=
  c7_saving_gate samplePayload4 4 sampleDecoded4 "topic1" "ModelA" "data7" (fun _ => none)
    rfl (by decide)

/-- C8 counterexample: with saving active, a store call that raises is
caught by the per-payload handler; the save was attempted (one record) but
no `save_status` is emitted and no dispatch event is produced for that
frame, although dispatching that same frame would have produced events —
so a raising store call does prevent dispatch, contrary to the claim. -/
theorem c8_counterexample :
    (process_payload "topic1" "ModelA" 4 (start_saving (fun _ => none) "ModelA" "data7")
        none (fun _ => none) (.binary samplePayload4)).2.2.2 = [] ∧
    (process_payload "topic1" "ModelA" 4 (start_saving (fun _ => none) "ModelA" "data7")
        none (fun _ => none) (.binary samplePayload4)).2.2.1 = [] ∧
    (process_payload "topic1" "ModelA" 4 (start_saving (fun _ => none) "ModelA" "data7")
        none (fun _ => none) (.binary samplePayload4)).2.1 ≠ [] ∧
    (dispatch_frame "topic1" "ModelA" sampleDecoded4 none).2 ≠ [] := by
  refine ⟨rfl, rfl, ?_, ?_⟩ <;> decide

/-- C8 amended: a persistence failure *returned* by the store
(`success = False`) is reported on the `save_status` channel and does not
prevent dispatch of that same frame's events (the events are exactly the
dispatch of the frame); only a store call that *raises* aborts the
frame's dispatch (see the counterexample). -/
theorem c8_save_failure_nonblocking (payload : List Nat) (cc : Nat) (d : Decoded)
    (tag model : String) (saving : String → Option String) (fn msg : String)
    (bufs : BufMap)
    (h : decode (.binary payload) cc = .ok d) (hsav : saving model = some fn) :
    (process_payload tag model cc saving (some (false, msg)) bufs (.binary payload)).2.2.1 =
      ["Failed to save history message: " ++ msg] ∧
    (process_payload tag model cc saving (some (false, msg)) bufs (.binary payload)).2.2.2 =
      (dispatch_frame tag model d (bufs (tag, model))).2 := by
  have hv := decode_binary_ok payload cc d h
  have hge := decoded_values_ge_main (bytes_to_u16 payload) cc d hv
  obtain ⟨hmpos, _, _, _, _, _, _, _⟩ := decoded_structure (bytes_to_u16 payload) cc d hv
  have hne : ¬ d.values.length = 0 := by omega
  unfold process_payload
  rw [h]
  simp [hne, maybe_persist, hsav]

theorem c8_save_failure_nonblocking_witness :
    (process_payload "topic1" "ModelA" 4 (start_saving (fun _ => none) "ModelA" "data7")
        (some (false, "disk full")) (fun _ => none) (.binary samplePayload4)).2.2.1 =
      ["Failed to save history message: " ++ "disk full"] ∧
    (process_payload "topic1" "ModelA" 4 (start_saving (fun _ => none) "ModelA" "data7")
        (some (false, "disk full")) (fun _ => none) (.binary samplePayload4)).2.2.2 =
      (dispatch_frame "topic1" "ModelA" sampleDecoded4
        ((fun _ => none : BufMap) ("topic1", "ModelA"))).2 :=
  c8_save_failure_nonblocking samplePayload4 4 sampleDecoded4 "topic1" "ModelA"
    (start_saving (fun _ => none) "ModelA" "data7") "data7" "disk full" (fun _ => none)
    rfl (by decide)

theorem filter_map_eq_nil {α β : Type} (f : α → β) (p : β → Bool) (l : List α)
    (h : ∀ a, p (f a) = false) : (l.map f).filter p = [] := by
  induction l with
  | nil => rfl
  | cons a l ih => simp [h, ih]

theorem filter_map_eq_self {α β : Type} (f : α → β) (p : β → Bool) (l : List α)
    (h : ∀ a, p (f a) = true) : (l.map f).filter p = l.map f := by
  induction l with
  | nil => rfl
  | cons a l ih => simp [h, ih]

/-- `zipWith (· ++ ·)` against enough empty seed buffers is the identity. -/
theorem zipWith_append_replicate_nil (vs : List (List Nat)) :
    ∀ n : Nat, vs.length ≤ n →
      List.zipWith (fun a b => a ++ b) (List.replicate n ([] : List Nat)) vs = vs := by
  induction vs with
  | nil => intro n _; simp
  | cons v vs ih =>
    intro n hn
    cases n with
    | zero => simp at hn
    | succ n =>
      rw [List.replicate_succ]
      simp only [List.zipWith_cons_cons, List.nil_append]
      rw [ih n (by simpa using hn)]

/-- Core of C10: one "Multiple Trend View" step on a binary-decoded frame,
starting from an absent or freshly reset buffer, emits exactly one
aggregated event and resets the buffer to `main + tacho` empty lists. -/
theorem c10_multi_trend_step (payload : List Nat) (cc : Nat) (d : Decoded)
    (buf0 : Option (List (List Nat)))
    (h : decode (.binary payload) cc = .ok d)
    (hbuf : buf0 = none ∨
      buf0 = some (List.replicate (d.main_channels + d.tacho_channels_count) [])) :
    multi_trend_step buf0 d.values d.main_channels d.tacho_channels_count =
      (List.replicate (d.main_channels + d.tacho_channels_count) [],
       [d.values ++
         List.replicate ((d.main_channels + d.tacho_channels_count) - d.values.length) []],
       true) := by
  have hv := decode_binary_ok payload cc d h
  obtain ⟨hinner, hlen⟩ := decoded_values_shape (bytes_to_u16 payload) cc d hv
  obtain ⟨hmpos, _, hspos, _, _, _, _, _⟩ := decoded_structure (bytes_to_u16 payload) cc d hv
  set m := d.main_channels with hm
  set t := d.tacho_channels_count with ht
  set s := d.samples_per_channel with hs
  have hvlen : d.values.length ≤ m + t := by
    rw [hlen]
    by_cases h1 : 1 ≤ t <;> by_cases h2 : 2 ≤ t <;> simp [h1, h2] <;> omega
  have hbufeq : buf0.getD (List.replicate (m + t) []) = List.replicate (m + t) [] := by
    rcases hbuf with hb | hb <;> rw [hb] <;> rfl
  have hext : (List.zipWith (fun a b => a ++ b) (List.replicate (m + t) ([] : List Nat)) d.values)
      ++ (List.replicate (m + t) ([] : List Nat)).drop d.values.length =
      d.values ++ List.replicate ((m + t) - d.values.length) [] := by
    rw [zipWith_append_replicate_nil d.values (m + t) hvlen, List.drop_replicate]
  have hnonempty : ∀ chl ∈ d.values, chl ≠ [] := by
    intro chl hchl hnil
    have := hinner chl hchl
    rw [hnil] at this
    simp at this
    omega
  simp only [multi_trend_step, hbufeq]
  rw [hext]
  rw [if_neg (by simp only [List.length_replicate]; omega)]
  have hcond : ((py_slice_neg t (d.values ++
      List.replicate ((m + t) - d.values.length) [])).all fun chd => !chd.isEmpty) = true := by
    rw [List.all_eq_true]
    intro chl hchl
    unfold py_slice_neg at hchl
    by_cases ht0 : t = 0
    · rw [if_pos ht0] at hchl
      exact absurd hchl (List.not_mem_nil chl)
    · rw [if_neg ht0] at hchl
      have hlentot : (d.values ++ List.replicate ((m + t) - d.values.length)
          ([] : List Nat)).length = m + t := by
        rw [List.length_append, List.length_replicate]
        omega
      rw [hlentot] at hchl
      have hchl2 : chl ∈ (d.values ++ List.replicate ((m + t) - d.values.length)
          ([] : List Nat)).take m := by
        have : m + t - t = m := by omega
        rwa [this] at hchl
      rw [List.take_append_of_le_length (by rw [hlen]; omega)] at hchl2
      have hmem : chl ∈ d.values := List.mem_of_mem_take hchl2
      simp [List.isEmpty_iff]
      exact hnonempty chl hmem
  rw [if_pos hcond]

/-- C10: dispatching one binary-decoded frame with a fresh (absent or
just-reset) aggregation buffer makes "Multiple Trend View" emit exactly
one aggregated event and leaves the buffer reset to empty lists, so the
buffer never carries samples across more than one binary frame. -/
theorem c10_multi_trend_single_frame (payload : List Nat) (cc : Nat) (d : Decoded)
    (tag model : String) (buf0 : Option (List (List Nat)))
    (h : decode (.binary payload) cc = .ok d)
    (hbuf : buf0 = none ∨
      buf0 = some (List.replicate (d.main_channels + d.tacho_channels_count) [])) :
    ((dispatch_frame tag model d buf0).2.filter
        (fun e => e.feature_name == "Multiple Trend View")).length = 1 ∧
    (dispatch_frame tag model d buf0).1 =
      some (List.replicate (d.main_channels + d.tacho_channels_count) []) := by
  have hstep := c10_multi_trend_step payload cc d buf0 h hbuf
  unfold dispatch_frame feature_names
  simp [process_features_go, dispatch_feature, hstep, filter_map_eq_nil, filter_map_eq_self]

theorem c10_multi_trend_single_frame_witness :
    ((dispatch_frame "topic1" "ModelA" sampleDecoded4 none).2.filter
        (fun e => e.feature_name == "Multiple Trend View")).length = 1 ∧
    (dispatch_frame "topic1" "ModelA" sampleDecoded4 none).1 =
      some (List.replicate
        (sampleDecoded4.main_channels + sampleDecoded4.tacho_channels_count) []) :=
  c10_multi_trend_single_frame samplePayload4 4 sampleDecoded4 "topic1" "ModelA" none
    rfl (Or.inl rfl)

/-- C6: dispatching one decoded frame with 4 main channels emits exactly
one `data_received` event for the whole-frame feature "Tabular View"
(carrying the full channel array) and exactly 4 events for the
per-channel feature "FFT", event `ch` carrying only channel `ch`'s
array.  This holds for any state of the aggregation buffer, since the
two features precede "Multiple Trend View" in the dispatch order and
each feature only emits events tagged with its own name. -/
theorem c6_dispatch_counts (payload : List Nat) (cc : Nat) (d : Decoded)
    (tag model : String) (buf0 : Option (List (List Nat)))
    (h : decode (.binary payload) cc = .ok d) (h4 : d.main_channels = 4) :
    ((dispatch_frame tag model d buf0).2.filter
        (fun e => e.feature_name == "Tabular View")) =
      [{ feature_name := "Tabular View", tag_name := tag, model_name := model
         payload := .whole d.values, sample_rate := d.sample_rate
         frame_index := d.frame_index }] ∧
    ((dispatch_frame tag model d buf0).2.filter
        (fun e => e.feature_name == "FFT")).map (fun e => e.payload) =
      (List.range 4).map fun ch_idx => EmitValues.single (d.values.getD ch_idx []) := by
  have hv := decode_binary_ok payload cc d h
  have hge := decoded_values_ge_main (bytes_to_u16 payload) cc d hv
  have hmin : min d.main_channels d.values.length = 4 := by
    rw [h4] at hge ⊢
    omega
  unfold dispatch_frame feature_names
  by_cases hflag : (multi_trend_step buf0 d.values d.main_channels d.tacho_channels_count).2.2 =
      true <;>
    simp [process_features_go, dispatch_feature, hmin, hflag, filter_map_eq_nil,
      filter_map_eq_self, Function.comp_def]

theorem c6_dispatch_counts_witness :
    ((dispatch_frame "topic1" "ModelA" sampleDecoded4 none).2.filter
        (fun e => e.feature_name == "Tabular View")) =
      [{ feature_name := "Tabular View", tag_name := "topic1", model_name := "ModelA"
         payload := .whole sampleDecoded4.values
         sample_rate := sampleDecoded4.sample_rate
         frame_index := sampleDecoded4.frame_index }] ∧
    ((dispatch_frame "topic1" "ModelA" sampleDecoded4 none).2.filter
        (fun e => e.feature_name == "FFT")).map (fun e => e.payload) =
      (List.range 4).map fun ch_idx =>
        EmitValues.single (sampleDecoded4.values.getD ch_idx []) :=
  c6_dispatch_counts samplePayload4 4 sampleDecoded4 "topic1" "ModelA" none rfl rfl

/-- C9: in a batch holding messages for an unresolvable topic `tA` (no
model of the project declares it as `tagName`) and a resolvable topic
`tB`, all of `tA`'s messages are dropped for the cycle while `tB`'s
messages are processed exactly as they would be alone: the whole batch
result equals the plain processing of `tB`'s payloads. -/
theorem c9_bad_topic_skipped (project : String) (models : List ProjModel)
    (tok : ChannelCountToken) (saving : String → Option String)
    (save_result : Option (Bool × String)) (bufs : BufMap)
    (tA tB : String) (psA psB : List RawPayload) (mo : ProjModel)
    (hA : ∀ x ∈ models, x.tagName ≠ tA)
    (hB : models.find? (fun x => x.tagName == tB) = some mo)
    (htB : tB ≠ "") (hname : mo.name ≠ "") :
    process_batch project (some ⟨models, tok⟩) saving save_result
        [(tA, psA), (tB, psB)] bufs =
      process_payloads tB mo.name (resolve_channel_count tok) saving save_result psB bufs := by
  have hfindA : models.find? (fun x => x.tagName == tA) = none := by
    rw [List.find?_eq_none]
    intro x hx
    simpa using hA x hx
  have hmoMem : mo ∈ models := List.mem_of_find?_eq_some hB
  have hfind2 : (models.find? (fun x => x.name == mo.name)).isSome := by
    rw [List.find?_isSome]
    exact ⟨mo, hmoMem, by simp⟩
  obtain ⟨mo2, hmo2⟩ := Option.isSome_iff_exists.mp hfind2
  simp [process_batch, parse_topic, hfindA, hB, hmo2, htB, hname]

theorem c9_bad_topic_skipped_witness :
    process_batch "proj" (some ⟨[⟨"ModelA", "topicB"⟩], .daq4ch⟩) (fun _ => none)
        (some (true, "ok"))
        [("topicA", [.binary [0]]), ("topicB", [.binary samplePayload4])] (fun _ => none) =
      process_payloads "topicB" "ModelA" (resolve_channel_count .daq4ch) (fun _ => none)
        (some (true, "ok")) [.binary samplePayload4] (fun _ => none) :=
  c9_bad_topic_skipped "proj" [⟨"ModelA", "topicB"⟩] .daq4ch (fun _ => none)
    (some (true, "ok")) (fun _ => none) "topicA" "topicB" [.binary [0]]
    [.binary samplePayload4] ⟨"ModelA", "topicB"⟩
    (by intro x hx; simp at hx; rw [hx]; decide) (by decide) (by decide) (by decide)

end Sarayu
